import Mathlib

/-!
Verification development for the assignment-and-quiz generator pipeline
(src/app.py).  Python strings are embedded shallowly as lists of Unicode
code points (List Nat); the ASCII fragments of the Python string methods
used by the program (lower, upper, capitalize, title, strip, split,
isalpha, the regex character classes, substring containment, and format
field substitution) are modelled as executable functions on those lists.
Randomness (random.choice, random.shuffle) is passed in as explicit
parameters: an index stream for choices and a reordering function for
shuffles, constrained to be a permutation where a theorem needs it.
-/

set_option maxRecDepth 1000000
set_option maxHeartbeats 8000000

/-- Abbreviation for the embedding of a Python string: its list of code points. -/
abbrev PyStr := List Nat

/-- Code points of a Lean string literal, used to transcribe the literals of the source. -/
def pyS (s : String) : PyStr := s.data.map Char.toNat

/-- Python ASCII whitespace, as recognised by str.split() and str.strip() and by the regex class backslash-s. -/
def isSpaceN (c : Nat) : Bool := c == 32 || c == 9 || c == 10 || c == 13 || c == 11 || c == 12

/-- ASCII word characters, the regex class backslash-w: letters, digits, underscore. -/
def isWordCharN (c : Nat) : Bool :=
  (48 ≤ c && c ≤ 57) || (65 ≤ c && c ≤ 90) || (97 ≤ c && c ≤ 122) || c == 95

/-- ASCII letters (the cased characters of the ASCII range). -/
def isAlphaN (c : Nat) : Bool := (65 ≤ c && c ≤ 90) || (97 ≤ c && c ≤ 122)

/-- ASCII lower-casing of one code point. -/
def toLowerN (c : Nat) : Nat := if 65 ≤ c ∧ c ≤ 90 then c + 32 else c

/-- ASCII upper-casing of one code point. -/
def toUpperN (c : Nat) : Nat := if 97 ≤ c ∧ c ≤ 122 then c - 32 else c

/-- Python str.lower(). -/
def lowerS (s : PyStr) : PyStr := s.map toLowerN

/-- Python str.capitalize(): first character upper-cased, all remaining characters lower-cased. -/
def capitalizeS : PyStr → PyStr
  | [] => []
  | c :: cs => toUpperN c :: cs.map toLowerN

/-- One step of Python str.title(): a letter is upper-cased after an uncased
character and lower-cased after a cased one; non-letters pass through. -/
def titleChar (prev : Bool) (c : Nat) : Nat :=
  if isAlphaN c then (if prev then toLowerN c else toUpperN c) else c

/-- Worker for str.title(); the flag records whether the previous character was cased. -/
def titleAux : Bool → PyStr → PyStr
  | _, [] => []
  | prev, c :: cs => titleChar prev c :: titleAux (isAlphaN c) cs

/-- Python str.title(). -/
def titleS (s : PyStr) : PyStr := titleAux false s

/-- Python str.strip(): whitespace removed from both ends. -/
def stripS (s : PyStr) : PyStr :=
  ((s.dropWhile isSpaceN).reverse.dropWhile isSpaceN).reverse

/-- Python str.isalpha(): nonempty and all letters. -/
def isalphaS (s : PyStr) : Bool := !s.isEmpty && s.all isAlphaN

/-- Test that the first argument is a leading segment of the second. -/
def startsWith : PyStr → PyStr → Bool
  | [], _ => true
  | _ :: _, [] => false
  | p :: ps, c :: cs => p == c && startsWith ps cs

/-- Python substring containment, the operator in: pat occurs contiguously inside s. -/
def occursIn (pat : PyStr) : PyStr → Bool
  | [] => startsWith pat []
  | c :: cs => startsWith pat (c :: cs) || occursIn pat cs

/-- Number of positions of s at which pat occurs. -/
def countOcc (pat s : PyStr) : Nat :=
  ((List.range (s.length + 1)).filter (fun i => startsWith pat (s.drop i))).length

/-- Worker for Python str.split() with no separator; cur holds the code points
of the token currently being read, most recent first. -/
def splitWSAux : PyStr → PyStr → List PyStr
  | [], cur => if cur.isEmpty then [] else [cur.reverse]
  | c :: cs, cur =>
    if isSpaceN c then
      if cur.isEmpty then splitWSAux cs [] else cur.reverse :: splitWSAux cs []
    else splitWSAux cs (c :: cur)

/-- Python str.split() with no separator: maximal runs of non-whitespace, empties discarded. -/
def splitWS (s : PyStr) : List PyStr := splitWSAux s []

/-- Python str.split(sep) for a one-character separator: fragments between separators, empties kept. -/
def splitSep (sep : Nat) : PyStr → List PyStr
  | [] => [[]]
  | c :: cs =>
    if c == sep then [] :: splitSep sep cs
    else
      match splitSep sep cs with
      | [] => [[c]]
      | t :: ts => (c :: t) :: ts

/-- Python list.index by value equality; returns the length when absent (the
source only evaluates it on a present element). -/
def pyIndex (x : PyStr) : List PyStr → Nat
  | [] => 0
  | a :: rest => if a == x then 0 else pyIndex x rest + 1

/-- Worker for the embedding of list(set(xs)): first-occurrence deduplication.
CPython iterates a set in a hash-dependent, process-dependent order; this model
fixes first-occurrence order, and only membership facts are proved from it. -/
def dedupAux (seen : List PyStr) : List PyStr → List PyStr
  | [] => []
  | x :: rest => if x ∈ seen then dedupAux seen rest else x :: dedupAux (x :: seen) rest

/-- Embedding of list(set(xs)); see dedupAux for the order caveat. -/
def pySetList (l : List PyStr) : List PyStr := dedupAux [] l

/-- Insertion into a list sorted by greater count first.  The fold below
processes the item list from the right, so the element being inserted stands
earlier in the original list than everything already sorted, and is therefore
placed before any element of equal count: a stable descending sort, the
behaviour of Python sorted with reverse equal True. -/
def insertDesc (x : PyStr × Nat) : List (PyStr × Nat) → List (PyStr × Nat)
  | [] => [x]
  | y :: rest => if y.2 ≤ x.2 then x :: y :: rest else y :: insertDesc x rest

/-- Stable descending sort by count: Python sorted(items, key on count, reverse=True). -/
def sortDesc (l : List (PyStr × Nat)) : List (PyStr × Nat) := l.foldr insertDesc []

/-- Substitution of the format field {topic}: Python template.format with topic
as the only field of the template.  The replacement text is spliced in without
being rescanned, as in str.format. -/
def substTopic (rep : PyStr) : PyStr → PyStr
  | 123 :: 116 :: 111 :: 112 :: 105 :: 99 :: 125 :: rest => rep ++ substTopic rep rest
  | c :: cs => c :: substTopic rep cs
  | [] => []

/-- Code points of the literal placeholder {topic}. -/
def braceTopic : PyStr := pyS "{topic}"

/-- The five essay prompt templates of AssignmentQuizGenerator.__init__. -/
def assignment_templates : List PyStr :=
  [pyS "Write a comprehensive essay analyzing {topic}. Discuss its key components, significance, and implications.",
   pyS "Compare and contrast different aspects of {topic}. Provide specific examples and explain their relevance.",
   pyS "Evaluate the importance of {topic} in its broader context. Support your arguments with evidence and reasoning.",
   pyS "Examine the relationship between {topic} and related concepts. How do they influence each other?",
   pyS "Create a detailed analysis of {topic}, including its causes, effects, and potential solutions or applications."]

/-- The five question stem phrases of AssignmentQuizGenerator.__init__. -/
def question_starters : List PyStr :=
  [pyS "What is the main concept behind",
   pyS "Which of the following best describes",
   pyS "What are the key characteristics of",
   pyS "Which statement is most accurate about",
   pyS "What is the primary purpose of"]

/-- Normalisation step of extract_key_concepts: re.sub replacing every
character that is neither a word character nor whitespace by one space. -/
def normText (t : PyStr) : PyStr :=
  t.map (fun c => if isWordCharN c || isSpaceN c then c else 32)

/-- The token list the extractor works on: words = text.split() after normalisation. -/
def wordsOf (t : PyStr) : List PyStr := splitWS (normText t)

/-- Qualification test of the frequency pass: cleaned word longer than 4 and alphabetic. -/
def freqQual (w : PyStr) : Bool := decide (4 < w.length) && isalphaS w

/-- Increment of the count of w in the dict word_freq, modelled as an
insertion-ordered association list: word_freq.get(word, 0) + 1. -/
def bump : List (PyStr × Nat) → PyStr → List (PyStr × Nat)
  | [], w => [(w, 1)]
  | (k, v) :: rest, w => if k = w then (k, v + 1) :: rest else (k, v) :: bump rest w

/-- One loop iteration of the frequency pass over a raw token. -/
def freqStep (m : List (PyStr × Nat)) (tok : PyStr) : List (PyStr × Nat) :=
  let cw := stripS (lowerS tok)
  if freqQual cw then bump m cw else m

/-- The dict word_freq of extract_key_concepts, in insertion order. -/
def word_freq (ws : List PyStr) : List (PyStr × Nat) := ws.foldl freqStep []

/-- The sorted-descending top ten of word_freq: sorted(word_freq.items(), by count, reverse=True)[:10]. -/
def frequentWords (ws : List PyStr) : List (PyStr × Nat) := (sortDesc (word_freq ws)).take 10

/-- Names kept from the frequency pass: frequent words with count above one. -/
def topTenNames (ws : List PyStr) : List PyStr :=
  (frequentWords ws |>.filter (fun p => decide (1 < p.2))).map Prod.fst

/-- AssignmentQuizGenerator.extract_key_concepts.  The sentence split is
computed and discarded in the source as well. -/
def extract_key_concepts (text : PyStr) : List PyStr :=
  let t := normText text
  let _sentences := splitSep 46 t
  let words := splitWS t
  let caps := (words.filter (fun w => capitalizeS w == w && decide (3 < w.length))).map lowerS
  let concepts := caps ++ topTenNames words
  (pySetList concepts).take 8

/-- The generic fallback topic of generate_assignments. -/
def generic_topic : PyStr := pyS "the main topic discussed"

/-- Concept-derived assignments: the first branch of generate_assignments. -/
def conceptAssignments (concepts : List PyStr) : List PyStr :=
  if concepts = [] then []
  else
    let selected := if 2 ≤ concepts.length then concepts.take 2 else concepts
    selected.enum.map (fun ic =>
      substTopic (titleS ic.2) (assignment_templates.getD (ic.1 % assignment_templates.length) []))

/-- The templates the backfill loop still considers unused: those not contained
as a substring in any produced assignment. -/
def remainingTemplates (assignments : List PyStr) : List PyStr :=
  assignment_templates.filter (fun t => !(assignments.any (fun a => occursIn t a)))

/-- One iteration body of the backfill loop: random.choice over the remaining
templates is modelled by an arbitrary index r reduced modulo their number. -/
def backfillStep (assignments : List PyStr) (r : Nat) : Option PyStr :=
  let remaining := remainingTemplates assignments
  if remaining.isEmpty then none
  else some (substTopic generic_topic (remaining.getD (r % remaining.length) []))

/-- The while loop of generate_assignments.  Each iteration either appends one
assignment or stops, and the guard is length below two, so fuel two runs the
loop to completion from every reachable state. -/
def backfillLoop (r : Nat → Nat) : Nat → Nat → List PyStr → List PyStr
  | _, 0, assignments => assignments
  | k, fuel + 1, assignments =>
    if assignments.length < 2 then
      match backfillStep assignments (r k) with
      | none => assignments
      | some a => backfillLoop r (k + 1) fuel (assignments ++ [a])
    else assignments

/-- AssignmentQuizGenerator.generate_assignments; r supplies the random
template choices of the backfill loop. -/
def generate_assignments (text : PyStr) (concepts : List PyStr) (r : Nat → Nat) : List PyStr :=
  let _ := text
  (backfillLoop r 0 2 (conceptAssignments concepts)).take 2

/-- One generated multiple-choice question: text, the four options in display
order, and the recorded correct letter as a one-character string. -/
structure QuizQuestion where
  question : PyStr
  options : List PyStr
  correct_answer : PyStr
deriving DecidableEq

/-- The correct answer string built for slot i of generate_quiz_questions. -/
def correctAnswerText (concepts : List PyStr) (i : Nat) : PyStr :=
  if i < concepts.length then
    titleS (concepts.getD i []) ++ pyS " is a key concept discussed in the text"
  else pyS "The text provides valuable information on the topic"

/-- The three wrong answer strings built for slot i: the default set, the
override sets for i = 1 and i = 2, or the generic set when concepts run out. -/
def wrongAnswersText (concepts : List PyStr) (i : Nat) : List PyStr :=
  if i < concepts.length then
    let c := titleS (concepts.getD i [])
    if i = 1 then
      [c ++ pyS " has no practical applications",
       c ++ pyS " is an outdated concept",
       c ++ pyS " is purely theoretical"]
    else if i = 2 then
      [c ++ pyS " is the least important aspect",
       c ++ pyS " is a minor detail",
       c ++ pyS " is incorrectly defined"]
    else
      [c ++ pyS " is not mentioned in the context",
       c ++ pyS " is only briefly referenced",
       c ++ pyS " is contradicted by the main argument"]
  else
    [pyS "The text contradicts itself frequently",
     pyS "The text lacks any coherent structure",
     pyS "The text is purely fictional"]

/-- The question text for slot i; starterIdx models random.choice over the five stems. -/
def questionText (concepts : List PyStr) (i starterIdx : Nat) : PyStr :=
  if i < concepts.length then
    question_starters.getD (starterIdx % question_starters.length) [] ++
      pyS " " ++ concepts.getD i [] ++ pyS "?"
  else pyS "Based on the text, which statement is most accurate?"

/-- Loop body of generate_quiz_questions for slot i: build the four answers,
shuffle them, relocate the correct answer by value search, record the letter. -/
def quizSlot (concepts : List PyStr) (qs : Nat → Nat)
    (sh : Nat → List PyStr → List PyStr) (i : Nat) : QuizQuestion :=
  let correct := correctAnswerText concepts i
  let all := sh i (correct :: wrongAnswersText concepts i)
  { question := questionText concepts i (qs i),
    options := all,
    correct_answer := [65 + pyIndex correct all] }

/-- AssignmentQuizGenerator.generate_quiz_questions; qs supplies the random
stem choices and sh the random.shuffle reorderings (one per slot).  The
sentence list is computed and discarded in the source as well. -/
def generate_quiz_questions (text : PyStr) (concepts : List PyStr)
    (qs : Nat → Nat) (sh : Nat → List PyStr → List PyStr) : List QuizQuestion :=
  let _sentences := ((splitSep 46 text).map stripS).filter (fun s => decide (20 < s.length))
  (List.range 3).map (quizSlot concepts qs sh)

/-- The word statistic of the shell: len(input_text.split()). -/
def word_count (t : PyStr) : Nat := (splitWS t).length

/-- The sentence statistic of the shell: fragments of the split on a period
that are nonempty after stripping whitespace. -/
def sentence_count (t : PyStr) : Nat :=
  ((splitSep 46 t).filter (fun s => !(stripS s).isEmpty)).length

/-- The boilerplate paragraph the shell synthesises from a topic, transcribed
byte for byte from the f-string of main, with the topic spliced at each field. -/
def boilerplate (topic : PyStr) : PyStr :=
  pyS "\n                " ++ topic ++
  pyS " is an important subject that involves multiple key concepts and principles. \n                Understanding " ++ topic ++
  pyS " requires knowledge of its fundamental components, processes, and applications.\n                The study of " ++ topic ++
  pyS " encompasses various aspects including its historical development, \n                current applications, and future implications. Key elements of " ++ topic ++
  pyS " include its \n                theoretical foundations, practical implementations, and relationship to other related fields.\n                Researchers and practitioners in " ++ topic ++
  pyS " continue to explore new methodologies and \n                approaches to advance our understanding of this important area.\n                "

/-- Leading literal segment of each of the five templates, before the field. -/
def topicPre : Nat → PyStr
  | 0 => pyS "Write a comprehensive essay analyzing "
  | 1 => pyS "Compare and contrast different aspects of "
  | 2 => pyS "Evaluate the importance of "
  | 3 => pyS "Examine the relationship between "
  | _ => pyS "Create a detailed analysis of "

/-- Trailing literal segment of each of the five templates, after the field. -/
def topicSuf : Nat → PyStr
  | 0 => pyS ". Discuss its key components, significance, and implications."
  | 1 => pyS ". Provide specific examples and explain their relevance."
  | 2 => pyS " in its broader context. Support your arguments with evidence and reasoning."
  | 3 => pyS " and related concepts. How do they influence each other?"
  | _ => pyS ", including its causes, effects, and potential solutions or applications."

/-- Lookup in the association-list model of the dict word_freq. -/
def alookup (k : PyStr) : List (PyStr × Nat) → Option Nat
  | [] => none
  | (k2, v) :: rest => if k2 = k then some v else alookup k rest

/-- Number of raw tokens whose cleaned form (lower-cased then stripped) is k. -/
def keyCount (ws : List PyStr) (k : PyStr) : Nat :=
  ws.countP (fun tok => decide (stripS (lowerS tok) = k))

/-- Lookup value after adding n further occurrences: unchanged when n is zero. -/
def addCnt (o : Option Nat) (n : Nat) : Option Nat :=
  if n = 0 then o else some (o.getD 0 + n)

/-- Number of nonempty fragments of the split on a period: the quantity named
by the specification sentence for sentenceCount, stated in its own words for
comparison with the code. -/
def specSentenceCountNonEmpty (t : PyStr) : Nat :=
  ((splitSep 46 t).filter (fun s => !s.isEmpty)).length

/-- Code points of the two-character string consisting of a left brace and a
lower-case t, the decisive fragment of the placeholder {topic}. -/
def braceT : PyStr := [123, 116]

/-- Absence of a left brace immediately followed by a lower-case t; every
string the generator can place in the assignment list satisfies it. -/
def noBT : PyStr → Bool
  | a :: b :: rest => !(a == 123 && b == 116) && noBT (b :: rest)
  | _ => true

/-- Last code point of a string, 0 when empty. -/
def lastD : PyStr → Nat
  | [] => 0
  | [a] => a
  | _ :: b :: rest => lastD (b :: rest)

theorem startsWith_iff : ∀ p s : PyStr, startsWith p s = true ↔ ∃ r, s = p ++ r
  | [], s => by simp [startsWith]
  | p :: ps, [] => by simp [startsWith]
  | p :: ps, c :: cs => by
    simp only [startsWith, Bool.and_eq_true, beq_iff_eq, startsWith_iff ps cs, List.cons_append]
    constructor
    · rintro ⟨rfl, r, rfl⟩
      exact ⟨r, rfl⟩
    · rintro ⟨r, h⟩
      injection h with h1 h2
      exact ⟨h1.symm, r, h2⟩

theorem occursIn_iff : ∀ (p s : PyStr), occursIn p s = true ↔ ∃ u v, s = u ++ (p ++ v)
  | p, [] => by
    simp only [occursIn, startsWith_iff]
    constructor
    · rintro ⟨r, h⟩
      exact ⟨[], r, h⟩
    · rintro ⟨u, v, h⟩
      have h2 : u = [] ∧ p ++ v = [] := by rw [← List.append_eq_nil]; exact h.symm
      have h3 : p = [] ∧ v = [] := by rw [← List.append_eq_nil]; exact h2.2
      exact ⟨[], by simp [h3.1]⟩
  | p, c :: cs => by
    simp only [occursIn, Bool.or_eq_true, startsWith_iff, occursIn_iff p cs]
    constructor
    · rintro (⟨r, h⟩ | ⟨u, v, h⟩)
      · exact ⟨[], r, by simpa using h⟩
      · exact ⟨c :: u, v, by simp [h]⟩
    · rintro ⟨u, v, h⟩
      match u, h with
      | [], h => exact Or.inl ⟨v, by simpa using h⟩
      | u :: us, h =>
        injection h with h1 h2
        exact Or.inr ⟨us, v, h2⟩

theorem occursIn_trans {p q s : PyStr} (hpq : occursIn p q = true)
    (hqs : occursIn q s = true) : occursIn p s = true := by
  rw [occursIn_iff] at hpq hqs ⊢
  obtain ⟨u1, v1, rfl⟩ := hpq
  obtain ⟨u2, v2, rfl⟩ := hqs
  exact ⟨u2 ++ u1, v1 ++ v2, by simp [List.append_assoc]⟩

theorem noBT_cons_cons {c d : Nat} {rest : PyStr} (h : noBT (c :: d :: rest) = true) :
    ¬(c = 123 ∧ d = 116) ∧ noBT (d :: rest) = true := by
  have h2 : (!(c == 123 && d == 116)) = true ∧ noBT (d :: rest) = true := by
    simpa [noBT, Bool.and_eq_true] using h
  refine ⟨?_, h2.2⟩
  rintro ⟨rfl, rfl⟩
  simp at h2

theorem noBT_cons_cons_mk {c d : Nat} {rest : PyStr} (h1 : ¬(c = 123 ∧ d = 116))
    (h2 : noBT (d :: rest) = true) : noBT (c :: d :: rest) = true := by
  have hfalse : (c == 123 && d == 116) = false := by
    by_cases hc : c = 123
    · by_cases hd : d = 116
      · exact absurd ⟨hc, hd⟩ h1
      · simp [hd]
    · simp [hc]
  simp [noBT, hfalse, h2]

theorem noBT_no_braceT : ∀ s : PyStr, noBT s = true → occursIn braceT s = false
  | [] => fun _ => rfl
  | [c] => fun _ => by simp [occursIn, startsWith, braceT]
  | c :: d :: rest => fun h => by
    obtain ⟨h1, h2⟩ := noBT_cons_cons h
    have ih := noBT_no_braceT (d :: rest) h2
    show (startsWith braceT (c :: d :: rest) || occursIn braceT (d :: rest)) = false
    rw [ih, Bool.or_false]
    show (123 == c && (116 == d && true)) = false
    by_cases hc : c = 123
    · by_cases hd : d = 116
      · exact absurd ⟨hc, hd⟩ h1
      · have : (116 == d) = false := by
          rw [beq_eq_false_iff_ne]
          exact fun h => hd h.symm
        simp [this]
    · have : (123 == c) = false := by
        rw [beq_eq_false_iff_ne]
        exact fun h => hc h.symm
      simp [this]

theorem not_occursIn_of_noBT {t a : PyStr} (ht : occursIn braceT t = true)
    (ha : noBT a = true) : occursIn t a = false := by
  by_contra hcon
  rw [Bool.not_eq_false] at hcon
  have := occursIn_trans ht hcon
  rw [noBT_no_braceT a ha] at this
  exact Bool.false_ne_true this

theorem lastD_cons_cons (a b : Nat) (rest : PyStr) :
    lastD (a :: b :: rest) = lastD (b :: rest) := rfl

theorem noBT_append : ∀ {a : PyStr} (b : PyStr),
    b.headD 0 ≠ 116 ∨ lastD a ≠ 123 → noBT a = true → noBT b = true → noBT (a ++ b) = true
  | [], b, _, _, hb => by simpa using hb
  | [x], b, hbound, ha, hb => by
    match b, hb with
    | [], _ => exact ha
    | y :: ys, hb =>
      show noBT (x :: y :: ys) = true
      refine noBT_cons_cons_mk ?_ hb
      rintro ⟨rfl, rfl⟩
      simp only [List.headD_cons, lastD, ne_eq] at hbound
      rcases hbound with h | h <;> simp at h
  | x :: x2 :: xs2, b, hbound, ha, hb => by
    obtain ⟨h1, h2⟩ := noBT_cons_cons ha
    have htail : noBT (x2 :: (xs2 ++ b)) = true := by
      rw [lastD_cons_cons] at hbound
      exact noBT_append b hbound h2 hb
    show noBT (x :: x2 :: (xs2 ++ b)) = true
    exact noBT_cons_cons_mk h1 htail

theorem titleChar_eq_123 {p : Bool} {c : Nat} (h : titleChar p c = 123) :
    isAlphaN c = false ∧ c = 123 := by
  by_cases ha : isAlphaN c
  · exfalso
    have ha2 : (65 ≤ c ∧ c ≤ 90) ∨ (97 ≤ c ∧ c ≤ 122) := by
      simpa [isAlphaN, Bool.or_eq_true, Bool.and_eq_true, decide_eq_true_eq] using ha
    simp only [titleChar, ha, if_true] at h
    cases p <;> simp only [Bool.false_eq_true, if_false, if_true, toLowerN, toUpperN] at h <;>
      split_ifs at h <;> omega
  · have ha2 : isAlphaN c = false := by simpa using ha
    simp only [titleChar, ha2, Bool.false_eq_true, if_false] at h
    exact ⟨ha2, h⟩

theorem titleChar_false_ne_116 (c : Nat) : titleChar false c ≠ 116 := by
  by_cases ha : isAlphaN c
  · have ha2 : (65 ≤ c ∧ c ≤ 90) ∨ (97 ≤ c ∧ c ≤ 122) := by
      simpa [isAlphaN, Bool.or_eq_true, Bool.and_eq_true, decide_eq_true_eq] using ha
    simp only [titleChar, ha, if_true, Bool.false_eq_true, if_false, toUpperN]
    split_ifs <;> omega
  · have ha2 : isAlphaN c = false := by simpa using ha
    simp only [titleChar, ha2, Bool.false_eq_true, if_false]
    intro h
    rw [h] at ha2
    exact absurd ha2 (by decide)

theorem noBT_titleAux : ∀ (l : PyStr) (b : Bool), noBT (titleAux b l) = true
  | [], _ => rfl
  | [c], b => by simp [titleAux, noBT]
  | c :: d :: rest, b => by
    have ih := noBT_titleAux (d :: rest) (isAlphaN c)
    show noBT (titleChar b c :: titleAux (isAlphaN c) (d :: rest)) = true
    have hstep : titleAux (isAlphaN c) (d :: rest) =
        titleChar (isAlphaN c) d :: titleAux (isAlphaN d) rest := rfl
    rw [hstep] at ih ⊢
    refine noBT_cons_cons_mk ?_ ih
    rintro ⟨h1, h2⟩
    obtain ⟨hna, rfl⟩ := titleChar_eq_123 h1
    rw [hna] at h2
    exact titleChar_false_ne_116 d h2

theorem noBT_titleS (c : PyStr) : noBT (titleS c) = true := noBT_titleAux c false

theorem substTopic_match (rep B : PyStr) :
    substTopic rep (123 :: 116 :: 111 :: 112 :: 105 :: 99 :: 125 :: B) =
      rep ++ substTopic rep B := rfl

theorem substTopic_cons_ne (rep : PyStr) {c : Nat} (cs : PyStr) (h : c ≠ 123) :
    substTopic rep (c :: cs) = c :: substTopic rep cs := by
  rw [substTopic.eq_def]
  split
  · next rest heq =>
    injection heq with h1 _
    exact absurd h1 h
  · rename_i c2 cs2 hnm heq
    injection heq with h1 h2
    rw [h1, h2]
  · rename_i heq
    exact absurd heq (List.cons_ne_nil _ _)

theorem substTopic_append_no123 (rep : PyStr) : ∀ (A B : PyStr), (∀ c ∈ A, c ≠ 123) →
    substTopic rep (A ++ B) = A ++ substTopic rep B
  | [], B, _ => by simp
  | a :: as, B, h => by
    rw [List.cons_append, substTopic_cons_ne rep _ (h a (List.mem_cons_self a as)),
      substTopic_append_no123 rep as B (fun c hc => h c (List.mem_cons_of_mem a hc)),
      List.cons_append]

theorem substTopic_self_no123 (rep A : PyStr) (h : ∀ c ∈ A, c ≠ 123) :
    substTopic rep A = A := by
  have h2 := substTopic_append_no123 rep A [] h
  have h3 : substTopic rep [] = [] := rfl
  rw [h3] at h2
  simpa using h2

theorem template_decomp (j : Nat) (hj : j < 5) :
    assignment_templates.getD j [] = topicPre j ++ braceTopic ++ topicSuf j := by
  interval_cases j <;> decide

theorem template_facts (j : Nat) (hj : j < 5) :
    (∀ c ∈ topicPre j, c ≠ 123) ∧ (∀ c ∈ topicSuf j, c ≠ 123) ∧
    lastD (topicPre j) ≠ 123 ∧ (topicSuf j).headD 0 ≠ 116 ∧
    noBT (topicPre j) = true ∧ noBT (topicSuf j) = true := by
  interval_cases j <;>
    exact ⟨by decide, by decide, by decide, by decide, by decide, by decide⟩

theorem braceTopic_cons : braceTopic = 123 :: 116 :: 111 :: 112 :: 105 :: 99 :: 125 :: [] := by
  decide

theorem substTopic_template (j : Nat) (hj : j < 5) (x : PyStr) :
    substTopic x (assignment_templates.getD j []) = topicPre j ++ x ++ topicSuf j := by
  obtain ⟨h1, h2, _, _, _, _⟩ := template_facts j hj
  rw [template_decomp j hj, List.append_assoc, substTopic_append_no123 x _ _ h1,
    braceTopic_cons]
  simp only [List.cons_append, List.nil_append]
  rw [substTopic_match x (topicSuf j), substTopic_self_no123 x _ h2, List.append_assoc]

theorem noBT_substTopic_template (j : Nat) (hj : j < 5) (x : PyStr) (hx : noBT x = true) :
    noBT (substTopic x (assignment_templates.getD j [])) = true := by
  obtain ⟨_, _, hlast, hhead, hpre, hsuf⟩ := template_facts j hj
  rw [substTopic_template j hj, List.append_assoc]
  refine noBT_append _ (Or.inr hlast) hpre ?_
  exact noBT_append _ (Or.inl hhead) hx hsuf

theorem noBT_generic_topic : noBT generic_topic = true := by decide

theorem occursIn_braceT_template (t : PyStr) (ht : t ∈ assignment_templates) :
    occursIn braceT t = true := by
  fin_cases ht <;> decide

theorem assignment_templates_length : assignment_templates.length = 5 := by decide

theorem getD_mem_of_lt (l : List PyStr) (n : Nat) (h : n < l.length) : l.getD n [] ∈ l := by
  rw [List.getD_eq_getElem?_getD, List.getElem?_eq_getElem h]
  exact List.getElem_mem h

theorem conceptAssignments_nil : conceptAssignments [] = [] := by
  simp [conceptAssignments]

theorem conceptAssignments_single (c : PyStr) :
    conceptAssignments [c] = [substTopic (titleS c) (assignment_templates.getD 0 [])] := by
  simp [conceptAssignments, List.enum, List.enumFrom]

theorem conceptAssignments_pair (c0 c1 : PyStr) (rest : List PyStr) :
    conceptAssignments (c0 :: c1 :: rest) =
      [substTopic (titleS c0) (assignment_templates.getD 0 []),
       substTopic (titleS c1) (assignment_templates.getD 1 [])] := by
  have h2 : 2 ≤ (c0 :: c1 :: rest).length := by simp [List.length_cons]
  simp [conceptAssignments, h2, List.take, List.enum, List.enumFrom, assignment_templates_length]

theorem remainingTemplates_all {assignments : List PyStr}
    (h : ∀ a ∈ assignments, noBT a = true) :
    remainingTemplates assignments = assignment_templates := by
  unfold remainingTemplates
  rw [List.filter_eq_self]
  intro t ht
  have hany : assignments.any (fun a => occursIn t a) = false := by
    rw [List.any_eq_false]
    intro a ha
    rw [not_occursIn_of_noBT (occursIn_braceT_template t ht) (h a ha)]
    exact Bool.false_ne_true
  rw [hany]
  rfl

theorem backfillStep_all {assignments : List PyStr} (r : Nat)
    (h : ∀ a ∈ assignments, noBT a = true) :
    backfillStep assignments r =
      some (substTopic generic_topic (assignment_templates.getD (r % 5) [])) := by
  unfold backfillStep
  rw [remainingTemplates_all h]
  rfl

theorem noBT_generic_template (k : Nat) :
    noBT (substTopic generic_topic (assignment_templates.getD (k % 5) [])) = true :=
  noBT_substTopic_template _ (Nat.mod_lt _ (by norm_num)) _ noBT_generic_topic

theorem generate_assignments_nil (text : PyStr) (r : Nat → Nat) :
    generate_assignments text [] r =
      [substTopic generic_topic (assignment_templates.getD (r 0 % 5) []),
       substTopic generic_topic (assignment_templates.getD (r 1 % 5) [])] := by
  have h0 : ∀ a ∈ ([] : List PyStr), noBT a = true := by intro a ha; cases ha
  have hstep0 := backfillStep_all (r 0) h0
  have h1 : ∀ a ∈ [substTopic generic_topic (assignment_templates.getD (r 0 % 5) [])],
      noBT a = true := by
    intro a ha
    rw [List.mem_singleton] at ha
    subst ha
    exact noBT_generic_template _
  have hstep1 := backfillStep_all (r 1) h1
  simp only [generate_assignments, conceptAssignments_nil, backfillLoop, List.length_nil,
    Nat.zero_lt_two, if_true, hstep0, List.nil_append, List.length_cons, Nat.lt_irrefl,
    hstep1, List.singleton_append, List.take]

theorem generate_assignments_single (text : PyStr) (c : PyStr) (r : Nat → Nat) :
    generate_assignments text [c] r =
      [substTopic (titleS c) (assignment_templates.getD 0 []),
       substTopic generic_topic (assignment_templates.getD (r 0 % 5) [])] := by
  have h1 : ∀ a ∈ [substTopic (titleS c) (assignment_templates.getD 0 [])],
      noBT a = true := by
    intro a ha
    rw [List.mem_singleton] at ha
    subst ha
    exact noBT_substTopic_template 0 (by norm_num) _ (noBT_titleS c)
  have hstep0 := backfillStep_all (r 0) h1
  simp only [generate_assignments, conceptAssignments_single, backfillLoop, List.length_cons,
    List.length_nil, Nat.lt_irrefl, hstep0, List.singleton_append, List.take]

theorem generate_assignments_two (text : PyStr) (c0 c1 : PyStr) (rest : List PyStr)
    (r : Nat → Nat) :
    generate_assignments text (c0 :: c1 :: rest) r =
      [substTopic (titleS c0) (assignment_templates.getD 0 []),
       substTopic (titleS c1) (assignment_templates.getD 1 [])] := by
  simp only [generate_assignments, conceptAssignments_pair, backfillLoop, List.length_cons,
    List.length_nil, List.take]

theorem mem_generate_assignments_noBT (text : PyStr) (concepts : List PyStr) (r : Nat → Nat) :
    ∀ a ∈ generate_assignments text concepts r, noBT a = true := by
  match concepts with
  | [] =>
    rw [generate_assignments_nil]
    intro a ha
    rcases List.mem_cons.mp ha with rfl | ha2
    · exact noBT_generic_template _
    · rw [List.mem_singleton] at ha2
      subst ha2
      exact noBT_generic_template _
  | [c] =>
    rw [generate_assignments_single]
    intro a ha
    rcases List.mem_cons.mp ha with rfl | ha2
    · exact noBT_substTopic_template 0 (by norm_num) _ (noBT_titleS c)
    · rw [List.mem_singleton] at ha2
      subst ha2
      exact noBT_generic_template _
  | c0 :: c1 :: rest =>
    rw [generate_assignments_two]
    intro a ha
    rcases List.mem_cons.mp ha with rfl | ha2
    · exact noBT_substTopic_template 0 (by norm_num) _ (noBT_titleS c0)
    · rw [List.mem_singleton] at ha2
      subst ha2
      exact noBT_substTopic_template 1 (by norm_num) _ (noBT_titleS c1)

theorem generate_assignments_length (text : PyStr) (concepts : List PyStr) (r : Nat → Nat) :
    (generate_assignments text concepts r).length = 2 := by
  match concepts with
  | [] => rw [generate_assignments_nil]; rfl
  | [c] => rw [generate_assignments_single]; rfl
  | c0 :: c1 :: rest => rw [generate_assignments_two]; rfl

/-- C5: for every input text and every concept list (the empty list included),
generate_assignments returns exactly two assignments.  The raw templates
contain the literal placeholder while produced assignment strings never
contain a left brace followed by a lower-case t, so the substring filter
discards nothing: the remaining-template list at every reachable state (every
initial segment of the result) is the full five-template list, the backfill choice
always succeeds, and the underflow branch is unreachable. -/
theorem c5_always_two_assignments :
    ∀ (text : PyStr) (concepts : List PyStr) (r : Nat → Nat),
    (generate_assignments text concepts r).length = 2 ∧
    ∀ k, remainingTemplates ((generate_assignments text concepts r).take k) =
      assignment_templates := by
  intro text concepts r
  refine ⟨generate_assignments_length text concepts r, fun k => remainingTemplates_all ?_⟩
  intro a ha
  exact mem_generate_assignments_noBT text concepts r a (List.take_subset k _ ha)

/-- C6: with a nonempty concept list, generate_assignments substitutes the
title-cased i-th selected concept (i below min 2 len) into template i mod 5;
with at least two concepts the result is exactly the two assignments built
from the distinct templates number 0 and 1, and no assignment contains the
unresolved placeholder. -/
theorem c6_concept_assignments :
    ∀ (text : PyStr) (concepts : List PyStr) (r : Nat → Nat), concepts ≠ [] →
    (∀ i, i < min 2 concepts.length →
      (generate_assignments text concepts r)[i]? =
        some (substTopic (titleS (concepts.getD i []))
          (assignment_templates.getD (i % 5) []))) ∧
    (2 ≤ concepts.length →
      generate_assignments text concepts r =
        [substTopic (titleS (concepts.getD 0 [])) (assignment_templates.getD 0 []),
         substTopic (titleS (concepts.getD 1 [])) (assignment_templates.getD 1 [])] ∧
      assignment_templates.getD 0 [] ≠ assignment_templates.getD 1 [] ∧
      ∀ a ∈ generate_assignments text concepts r, occursIn braceTopic a = false) := by
  intro text concepts r hne
  match concepts, hne with
  | [c], _ =>
    constructor
    · intro i hi
      have hi0 : i = 0 := by
        simp only [List.length_cons, List.length_nil] at hi
        omega
      subst hi0
      rw [generate_assignments_single]
      rfl
    · intro h2
      exact absurd h2 (by norm_num)
  | c0 :: c1 :: rest, _ =>
    constructor
    · intro i hi
      have hi2 : i < 2 := lt_of_lt_of_le hi (min_le_left _ _)
      interval_cases i <;> rw [generate_assignments_two] <;> rfl
    · intro _
      refine ⟨generate_assignments_two text c0 c1 rest r, by decide, ?_⟩
      intro a ha
      exact not_occursIn_of_noBT (by decide)
        (mem_generate_assignments_noBT text (c0 :: c1 :: rest) r a ha)

/-- Witness for C6 at a concrete two-concept input. -/
theorem c6_concept_assignments_witness :
    generate_assignments (pyS "") [pyS "dna", pyS "rna"] (fun _ => 0) =
      [substTopic (titleS ([pyS "dna", pyS "rna"].getD 0 []))
        (assignment_templates.getD 0 []),
       substTopic (titleS ([pyS "dna", pyS "rna"].getD 1 []))
        (assignment_templates.getD 1 [])] ∧
    assignment_templates.getD 0 [] ≠ assignment_templates.getD 1 [] ∧
    ∀ a ∈ generate_assignments (pyS "") [pyS "dna", pyS "rna"] (fun _ => 0),
      occursIn braceTopic a = false :=
  (c6_concept_assignments (pyS "") [pyS "dna", pyS "rna"] (fun _ => 0)
    (by decide)).2 (by decide)

/-- C7: when fewer than two concept-based assignments exist, every further
element of the result is the generic fallback topic substituted into a
template drawn from the remaining-template list of the state at which it was
added (the initial segment of the result before it), and a result shorter than two
could only arise with an empty remaining-template list. -/
theorem c7_backfill :
    ∀ (text : PyStr) (concepts : List PyStr) (r : Nat → Nat),
    (conceptAssignments concepts).length < 2 →
    ((generate_assignments text concepts r).length < 2 →
      remainingTemplates (generate_assignments text concepts r) = []) ∧
    (∀ i a, (conceptAssignments concepts).length ≤ i →
      (generate_assignments text concepts r)[i]? = some a →
      ∃ t ∈ remainingTemplates ((generate_assignments text concepts r).take i),
        a = substTopic generic_topic t) := by
  intro text concepts r hlt
  constructor
  · intro hshort
    rw [generate_assignments_length text concepts r] at hshort
    exact absurd hshort (by norm_num)
  · intro i a hi hget
    match concepts with
    | c0 :: c1 :: rest =>
      rw [conceptAssignments_pair] at hlt
      exact absurd hlt (by norm_num)
    | [] =>
      rw [generate_assignments_nil] at hget
      match i, hget with
      | 0, hget =>
        have ha : a = substTopic generic_topic (assignment_templates.getD (r 0 % 5) []) := by
          simpa using hget.symm
        rw [generate_assignments_nil]
        have hrem : remainingTemplates (([substTopic generic_topic
            (assignment_templates.getD (r 0 % 5) []),
            substTopic generic_topic (assignment_templates.getD (r 1 % 5) [])]).take 0) =
            assignment_templates := by
          rw [List.take_zero]
          exact remainingTemplates_all (by intro x hx; cases hx)
        rw [List.take_zero] at hrem ⊢
        rw [hrem]
        exact ⟨assignment_templates.getD (r 0 % 5) [],
          getD_mem_of_lt _ _ (by rw [assignment_templates_length]; exact Nat.mod_lt _ (by norm_num)),
          ha⟩
      | 1, hget =>
        have ha : a = substTopic generic_topic (assignment_templates.getD (r 1 % 5) []) := by
          simpa using hget.symm
        rw [generate_assignments_nil]
        have hrem : remainingTemplates [substTopic generic_topic
            (assignment_templates.getD (r 0 % 5) [])] = assignment_templates := by
          refine remainingTemplates_all ?_
          intro x hx
          rw [List.mem_singleton] at hx
          subst hx
          exact noBT_generic_template _
        have htake : ([substTopic generic_topic (assignment_templates.getD (r 0 % 5) []),
            substTopic generic_topic (assignment_templates.getD (r 1 % 5) [])]).take 1 =
            [substTopic generic_topic (assignment_templates.getD (r 0 % 5) [])] := rfl
        rw [htake, hrem]
        exact ⟨assignment_templates.getD (r 1 % 5) [],
          getD_mem_of_lt _ _ (by rw [assignment_templates_length]; exact Nat.mod_lt _ (by norm_num)),
          ha⟩
      | n + 2, hget => simp at hget
    | [c] =>
      rw [conceptAssignments_single] at hi
      rw [generate_assignments_single] at hget
      match i, hget with
      | 0, hget => exact absurd hi (by norm_num)
      | 1, hget =>
        have ha : a = substTopic generic_topic (assignment_templates.getD (r 0 % 5) []) := by
          simpa using hget.symm
        rw [generate_assignments_single]
        have hrem : remainingTemplates [substTopic (titleS c)
            (assignment_templates.getD 0 [])] = assignment_templates := by
          refine remainingTemplates_all ?_
          intro x hx
          rw [List.mem_singleton] at hx
          subst hx
          exact noBT_substTopic_template 0 (by norm_num) _ (noBT_titleS c)
        have htake : ([substTopic (titleS c) (assignment_templates.getD 0 []),
            substTopic generic_topic (assignment_templates.getD (r 0 % 5) [])]).take 1 =
            [substTopic (titleS c) (assignment_templates.getD 0 [])] := rfl
        rw [htake, hrem]
        exact ⟨assignment_templates.getD (r 0 % 5) [],
          getD_mem_of_lt _ _ (by rw [assignment_templates_length]; exact Nat.mod_lt _ (by norm_num)),
          ha⟩
      | n + 2, hget => simp at hget

/-- Witness for C7 at the empty concept list: the second produced assignment is
the fallback topic in a template unused at the time it was added. -/
theorem c7_backfill_witness :
    ∃ t ∈ remainingTemplates ((generate_assignments (pyS "") [] (fun _ => 0)).take 1),
      substTopic generic_topic (assignment_templates.getD 0 []) =
        substTopic generic_topic t :=
  (c7_backfill (pyS "") [] (fun _ => 0) (by decide)).2 1
    (substTopic generic_topic (assignment_templates.getD 0 [])) (by decide) (by decide)

theorem pyIndex_lt {x : PyStr} : ∀ {l : List PyStr}, x ∈ l → pyIndex x l < l.length := by
  intro l hmem
  induction l with
  | nil => cases hmem
  | cons a rest ih =>
    by_cases h : a == x
    · simp [pyIndex, h]
    · rcases List.mem_cons.mp hmem with rfl | hr
      · simp at h
      · simp only [pyIndex, h, Bool.false_eq_true, if_false, List.length_cons]
        exact Nat.succ_lt_succ (ih hr)

theorem pyIndex_getD {x : PyStr} : ∀ {l : List PyStr}, x ∈ l →
    l.getD (pyIndex x l) [] = x := by
  intro l hmem
  induction l with
  | nil => cases hmem
  | cons a rest ih =>
    by_cases h : a == x
    · simp only [pyIndex, h, if_true, List.getD]
      exact eq_of_beq h
    · rcases List.mem_cons.mp hmem with rfl | hr
      · simp at h
      · simp only [pyIndex, h, Bool.false_eq_true, if_false]
        exact ih hr

theorem wrongAnswersText_length (concepts : List PyStr) (i : Nat) :
    (wrongAnswersText concepts i).length = 3 := by
  unfold wrongAnswersText
  split_ifs <;> rfl

theorem correct_not_mem_wrong (concepts : List PyStr) (i : Nat) :
    correctAnswerText concepts i ∉ wrongAnswersText concepts i := by
  simp only [correctAnswerText, wrongAnswersText]
  split_ifs with h h1 h2
  · simp only [List.mem_cons, List.not_mem_nil, or_false]
    rintro (heq | heq | heq) <;> exact absurd (List.append_cancel_left heq) (by decide)
  · simp only [List.mem_cons, List.not_mem_nil, or_false]
    rintro (heq | heq | heq) <;> exact absurd (List.append_cancel_left heq) (by decide)
  · simp only [List.mem_cons, List.not_mem_nil, or_false]
    rintro (heq | heq | heq) <;> exact absurd (List.append_cancel_left heq) (by decide)
  · decide

theorem quiz_getElem (text : PyStr) (concepts : List PyStr) (qs : Nat → Nat)
    (sh : Nat → List PyStr → List PyStr) {i : Nat} (hi : i < 3) :
    (generate_quiz_questions text concepts qs sh)[i]? = some (quizSlot concepts qs sh i) := by
  show ((List.range 3).map (quizSlot concepts qs sh))[i]? = _
  rw [List.getElem?_map, List.getElem?_range hi]
  rfl

theorem quiz_length (text : PyStr) (concepts : List PyStr) (qs : Nat → Nat)
    (sh : Nat → List PyStr → List PyStr) :
    (generate_quiz_questions text concepts qs sh).length = 3 := rfl

/-- C1: for every input text, every concept list and every valid randomness
(the shuffle is a permutation), generate_quiz_questions returns exactly three
questions, and each question offers exactly four options among which the
intended correct answer text occurs exactly once. -/
theorem c1_quiz_shape :
    ∀ (text : PyStr) (concepts : List PyStr) (qs : Nat → Nat)
      (sh : Nat → List PyStr → List PyStr),
    (∀ i l, (sh i l).Perm l) →
    (generate_quiz_questions text concepts qs sh).length = 3 ∧
    ∀ (i : Nat) (q : QuizQuestion), (generate_quiz_questions text concepts qs sh)[i]? = some q →
      q.options.length = 4 ∧
      q.options.countP (fun o => o == correctAnswerText concepts i) = 1 := by
  intro text concepts qs sh hsh
  refine ⟨rfl, ?_⟩
  intro i q hq
  have hi : i < 3 := by
    by_contra hni
    rw [List.getElem?_eq_none (by rw [quiz_length]; omega)] at hq
    cases hq
  rw [quiz_getElem text concepts qs sh hi] at hq
  injection hq with hq
  subst hq
  have hperm := hsh i (correctAnswerText concepts i :: wrongAnswersText concepts i)
  constructor
  · show (sh i (correctAnswerText concepts i :: wrongAnswersText concepts i)).length = 4
    rw [hperm.length_eq, List.length_cons, wrongAnswersText_length]
  · show List.countP _ (sh i (correctAnswerText concepts i :: wrongAnswersText concepts i)) = 1
    rw [hperm.countP_eq, List.countP_cons_of_pos _ _ (by simp)]
    have hzero : List.countP (fun o => o == correctAnswerText concepts i)
        (wrongAnswersText concepts i) = 0 := by
      rw [List.countP_eq_zero]
      intro a ha hbeq
      rw [eq_of_beq hbeq] at ha
      exact correct_not_mem_wrong concepts i ha
    rw [hzero]

/-- Witness for C1 with the identity shuffle on the empty concept list. -/
theorem c1_quiz_shape_witness :
    (generate_quiz_questions (pyS "") [] (fun _ => 0) (fun _ l => l)).length = 3 ∧
    (((generate_quiz_questions (pyS "") [] (fun _ => 0) (fun _ l => l)).getD 0
        ⟨[], [], []⟩).options.length = 4 ∧
      ((generate_quiz_questions (pyS "") [] (fun _ => 0) (fun _ l => l)).getD 0
        ⟨[], [], []⟩).options.countP (fun o => o == correctAnswerText [] 0) = 1) :=
  ⟨(c1_quiz_shape (pyS "") [] (fun _ => 0) (fun _ l => l) (fun _ l => List.Perm.refl l)).1,
   (c1_quiz_shape (pyS "") [] (fun _ => 0) (fun _ l => l)
      (fun _ l => List.Perm.refl l)).2 0 _ rfl⟩

/-- C2: under the same valid-shuffle assumption, each recorded correct label
is one of the four letters A to D, and the option at the corresponding
zero-based index equals the intended correct answer string. -/
theorem c2_correct_label :
    ∀ (text : PyStr) (concepts : List PyStr) (qs : Nat → Nat)
      (sh : Nat → List PyStr → List PyStr),
    (∀ i l, (sh i l).Perm l) →
    ∀ (i : Nat) (q : QuizQuestion), (generate_quiz_questions text concepts qs sh)[i]? = some q →
      q.correct_answer ∈ [pyS "A", pyS "B", pyS "C", pyS "D"] ∧
      ∃ k, k < 4 ∧ q.correct_answer = [65 + k] ∧
        q.options.getD k [] = correctAnswerText concepts i := by
  intro text concepts qs sh hsh i q hq
  have hi : i < 3 := by
    by_contra hni
    rw [List.getElem?_eq_none (by rw [quiz_length]; omega)] at hq
    cases hq
  rw [quiz_getElem text concepts qs sh hi] at hq
  injection hq with hq
  subst hq
  have hperm := hsh i (correctAnswerText concepts i :: wrongAnswersText concepts i)
  have hmem : correctAnswerText concepts i ∈
      sh i (correctAnswerText concepts i :: wrongAnswersText concepts i) :=
    hperm.mem_iff.mpr (List.mem_cons_self _ _)
  have hlen : (sh i (correctAnswerText concepts i :: wrongAnswersText concepts i)).length = 4 := by
    rw [hperm.length_eq, List.length_cons, wrongAnswersText_length]
  have hk4 : pyIndex (correctAnswerText concepts i)
      (sh i (correctAnswerText concepts i :: wrongAnswersText concepts i)) < 4 := by
    rw [← hlen]
    exact pyIndex_lt hmem
  refine ⟨?_, pyIndex (correctAnswerText concepts i)
      (sh i (correctAnswerText concepts i :: wrongAnswersText concepts i)), hk4, rfl,
      pyIndex_getD hmem⟩
  show [65 + pyIndex (correctAnswerText concepts i)
      (sh i (correctAnswerText concepts i :: wrongAnswersText concepts i))] ∈ _
  interval_cases h : pyIndex (correctAnswerText concepts i)
      (sh i (correctAnswerText concepts i :: wrongAnswersText concepts i)) <;> decide

/-- Witness for C2 with the identity shuffle on the empty concept list. -/
theorem c2_correct_label_witness :
    ((generate_quiz_questions (pyS "") [] (fun _ => 0) (fun _ l => l)).getD 0
        ⟨[], [], []⟩).correct_answer ∈ [pyS "A", pyS "B", pyS "C", pyS "D"] ∧
    ∃ k, k < 4 ∧
      ((generate_quiz_questions (pyS "") [] (fun _ => 0) (fun _ l => l)).getD 0
        ⟨[], [], []⟩).correct_answer = [65 + k] ∧
      ((generate_quiz_questions (pyS "") [] (fun _ => 0) (fun _ l => l)).getD 0
        ⟨[], [], []⟩).options.getD k [] = correctAnswerText [] 0 :=
  c2_correct_label (pyS "") [] (fun _ => 0) (fun _ l => l)
    (fun _ l => List.Perm.refl l) 0 _ rfl

theorem splitWSAux_tokens : ∀ (s cur : PyStr), (∀ c ∈ cur, isSpaceN c = false) →
    ∀ tok ∈ splitWSAux s cur, tok ≠ [] ∧ ∀ c ∈ tok, isSpaceN c = false := by
  intro s
  induction s with
  | nil =>
    intro cur hcur tok htok
    simp only [splitWSAux] at htok
    split_ifs at htok with hemp
    · cases htok
    · rw [List.mem_singleton] at htok
      subst htok
      refine ⟨?_, ?_⟩
      · intro hrev
        rw [List.reverse_eq_nil_iff] at hrev
        rw [hrev] at hemp
        simp at hemp
      · intro c hc
        exact hcur c (List.mem_reverse.mp hc)
  | cons a s ih =>
    intro cur hcur tok htok
    simp only [splitWSAux] at htok
    split_ifs at htok with hsp hemp
    · exact ih [] (by intro c hc; cases hc) tok htok
    · rcases List.mem_cons.mp htok with rfl | htok2
      · refine ⟨?_, ?_⟩
        · intro hrev
          rw [List.reverse_eq_nil_iff] at hrev
          rw [hrev] at hemp
          simp at hemp
        · intro c hc
          exact hcur c (List.mem_reverse.mp hc)
      · exact ih [] (by intro c hc; cases hc) tok htok2
    · refine ih (a :: cur) ?_ tok htok
      intro c hc
      rcases List.mem_cons.mp hc with rfl | hc2
      · simp only [Bool.not_eq_true] at hsp
        exact hsp
      · exact hcur c hc2

theorem splitWS_tokens (s : PyStr) :
    ∀ tok ∈ splitWS s, tok ≠ [] ∧ ∀ c ∈ tok, isSpaceN c = false :=
  splitWSAux_tokens s [] (by intro c hc; cases hc)

theorem splitWS_all_space : ∀ (s : PyStr), (∀ c ∈ s, isSpaceN c = true) → splitWS s = []
  | [], _ => rfl
  | a :: s, h => by
    have ha := h a (List.mem_cons_self a s)
    show splitWSAux (a :: s) [] = []
    simp only [splitWSAux, ha, if_true, List.isEmpty_nil]
    exact splitWS_all_space s (fun c hc => h c (List.mem_cons_of_mem a hc))

theorem dropWhile_eq_self_of_false {p : Nat → Bool} :
    ∀ {l : PyStr}, (∀ c ∈ l, p c = false) → l.dropWhile p = l := by
  intro l h
  match l with
  | [] => rfl
  | c :: cs =>
    exact List.dropWhile_cons_of_neg (by rw [h c (List.mem_cons_self c cs)]; exact Bool.false_ne_true)

theorem stripS_of_no_space {l : PyStr} (h : ∀ c ∈ l, isSpaceN c = false) : stripS l = l := by
  unfold stripS
  rw [dropWhile_eq_self_of_false h,
    dropWhile_eq_self_of_false (fun c hc => h c (List.mem_reverse.mp hc)),
    List.reverse_reverse]

theorem dropWhile_eq_nil_of_all {p : Nat → Bool} :
    ∀ (l : PyStr), (∀ c ∈ l, p c = true) → l.dropWhile p = []
  | [], _ => rfl
  | c :: cs, h => by
    rw [List.dropWhile_cons_of_pos (h c (List.mem_cons_self c cs))]
    exact dropWhile_eq_nil_of_all cs (fun d hd => h d (List.mem_cons_of_mem c hd))

theorem mem_dropWhile_of_false {p : Nat → Bool} {l : PyStr} {c : Nat}
    (hc : c ∈ l) (hp : p c = false) : c ∈ l.dropWhile p := by
  have hdec := List.takeWhile_append_dropWhile (p := p) (l := l)
  rw [← hdec] at hc
  rcases List.mem_append.mp hc with htake | hdrop
  · exact absurd (List.mem_takeWhile_imp htake) (by rw [hp]; exact Bool.false_ne_true)
  · exact hdrop

theorem stripS_eq_nil_iff (s : PyStr) : stripS s = [] ↔ ∀ c ∈ s, isSpaceN c = true := by
  constructor
  · intro h c hc
    by_contra hns
    have hp : isSpaceN c = false := by simpa using hns
    have h1 : c ∈ s.dropWhile isSpaceN := mem_dropWhile_of_false hc hp
    have h2 : c ∈ (s.dropWhile isSpaceN).reverse := List.mem_reverse.mpr h1
    have h3 : c ∈ (s.dropWhile isSpaceN).reverse.dropWhile isSpaceN :=
      mem_dropWhile_of_false h2 hp
    have h4 : c ∈ stripS s := List.mem_reverse.mpr h3
    rw [h] at h4
    cases h4
  · intro h
    unfold stripS
    rw [dropWhile_eq_nil_of_all s h]
    rfl

theorem isSpaceN_toLowerN {c : Nat} (h : isSpaceN c = false) : isSpaceN (toLowerN c) = false := by
  unfold toLowerN
  split_ifs with h2
  · simp only [isSpaceN, Bool.or_eq_false_iff, beq_eq_false_iff_ne, ne_eq]
    omega
  · exact h

theorem lowerS_no_space {w : PyStr} (h : ∀ c ∈ w, isSpaceN c = false) :
    ∀ c ∈ lowerS w, isSpaceN c = false := by
  intro c hc
  obtain ⟨d, hd, rfl⟩ := List.mem_map.mp hc
  exact isSpaceN_toLowerN (h d hd)

theorem isSpaceN_of_alpha {c : Nat} (h : isAlphaN c = true) : isSpaceN c = false := by
  simp only [isAlphaN, Bool.or_eq_true, Bool.and_eq_true, decide_eq_true_eq] at h
  simp only [isSpaceN, Bool.or_eq_false_iff, beq_eq_false_iff_ne, ne_eq]
  omega

theorem dedupAux_subset : ∀ (l seen : List PyStr) (x : PyStr),
    x ∈ dedupAux seen l → x ∈ l := by
  intro l
  induction l with
  | nil =>
    intro seen x hx
    cases hx
  | cons a rest ih =>
    intro seen x hx
    simp only [dedupAux] at hx
    split_ifs at hx with hmem
    · exact List.mem_cons_of_mem a (ih seen x hx)
    · rcases List.mem_cons.mp hx with rfl | hx2
      · exact List.mem_cons_self _ _
      · exact List.mem_cons_of_mem a (ih _ x hx2)

theorem insertDesc_perm (x : PyStr × Nat) : ∀ l, (insertDesc x l).Perm (x :: l)
  | [] => List.Perm.refl _
  | y :: rest => by
    unfold insertDesc
    split_ifs with h
    · exact List.Perm.refl _
    · exact ((insertDesc_perm x rest).cons y).trans (List.Perm.swap x y rest)

theorem sortDesc_perm : ∀ l, (sortDesc l).Perm l
  | [] => List.Perm.refl _
  | a :: rest => by
    show (insertDesc a (sortDesc rest)).Perm (a :: rest)
    exact (insertDesc_perm a (sortDesc rest)).trans ((sortDesc_perm rest).cons a)

theorem alookup_bump_self (m : List (PyStr × Nat)) (w : PyStr) :
    alookup w (bump m w) = some ((alookup w m).getD 0 + 1) := by
  induction m with
  | nil => simp [bump, alookup]
  | cons kv rest ih =>
    obtain ⟨k, v⟩ := kv
    by_cases h : k = w
    · subst h
      simp [bump, alookup]
    · simp [bump, alookup, h, ih]

theorem alookup_bump_ne (m : List (PyStr × Nat)) (w k : PyStr) (h : k ≠ w) :
    alookup k (bump m w) = alookup k m := by
  induction m with
  | nil => simp [bump, alookup, Ne.symm h]
  | cons kv rest ih =>
    obtain ⟨k2, v⟩ := kv
    by_cases h2 : k2 = w
    · subst h2
      simp [bump, alookup, Ne.symm h]
    · by_cases h3 : k2 = k
      · subst h3
        simp [bump, alookup, h2]
      · simp [bump, alookup, h2, h3, ih]

theorem keys_bump_subset : ∀ (m : List (PyStr × Nat)) (w x : PyStr),
    x ∈ (bump m w).map Prod.fst → x ∈ m.map Prod.fst ∨ x = w := by
  intro m
  induction m with
  | nil =>
    intro w x hx
    simp only [bump, List.map_cons, List.map_nil, List.mem_singleton] at hx
    exact Or.inr hx
  | cons kv rest ih =>
    intro w x hx
    obtain ⟨k, v⟩ := kv
    by_cases h : k = w
    · subst h
      simp only [bump, if_true] at hx
      exact Or.inl hx
    · simp only [bump, h, if_false, List.map_cons, List.mem_cons] at hx
      rcases hx with rfl | hx2
      · exact Or.inl (List.mem_cons_self _ _)
      · rcases ih w x hx2 with hin | rfl
        · exact Or.inl (List.mem_cons_of_mem _ hin)
        · exact Or.inr rfl

theorem keysND_bump (m : List (PyStr × Nat)) (w : PyStr)
    (h : (m.map Prod.fst).Nodup) : ((bump m w).map Prod.fst).Nodup := by
  induction m with
  | nil => simp [bump]
  | cons kv rest ih =>
    obtain ⟨k, v⟩ := kv
    rw [List.map_cons, List.nodup_cons] at h
    by_cases h2 : k = w
    · subst h2
      simp only [bump, if_true, List.map_cons, List.nodup_cons]
      exact h
    · simp only [bump, h2, if_false, List.map_cons, List.nodup_cons]
      refine ⟨?_, ih h.2⟩
      intro hk
      rcases keys_bump_subset rest w k hk with hin | rfl
      · exact h.1 hin
      · exact h2 rfl

theorem alookup_of_mem : ∀ {m : List (PyStr × Nat)}, (m.map Prod.fst).Nodup →
    ∀ {k : PyStr} {v : Nat}, (k, v) ∈ m → alookup k m = some v := by
  intro m
  induction m with
  | nil =>
    intro _ k v hm
    cases hm
  | cons kv rest ih =>
    intro hnd k v hm
    obtain ⟨k2, v2⟩ := kv
    rw [List.map_cons, List.nodup_cons] at hnd
    rcases List.mem_cons.mp hm with heq | hm2
    · injection heq with h1 h2
      subst h1
      subst h2
      simp [alookup]
    · by_cases h3 : k2 = k
      · subst h3
        exact absurd (List.mem_map_of_mem Prod.fst hm2) hnd.1
      · simp only [alookup, h3, if_false]
        exact ih hnd.2 hm2

theorem word_freq_foldl_qual {k : PyStr} (hqual : freqQual k = true) :
    ∀ (ws : List PyStr) (m : List (PyStr × Nat)),
    alookup k (ws.foldl freqStep m) = addCnt (alookup k m) (keyCount ws k)
  | [], m => by simp [keyCount, addCnt]
  | tok :: rest, m => by
    rw [List.foldl_cons]
    by_cases hcw : stripS (lowerS tok) = k
    · have hq2 : freqQual (stripS (lowerS tok)) = true := by rw [hcw]; exact hqual
      have hstep : freqStep m tok = bump m (stripS (lowerS tok)) := by
        simp [freqStep, hq2]
      rw [hstep, hcw, word_freq_foldl_qual hqual rest (bump m k), alookup_bump_self]
      have hkc : keyCount (tok :: rest) k = keyCount rest k + 1 := by
        simp [keyCount, List.countP_cons, hcw]
      rw [hkc]
      rcases Nat.eq_zero_or_pos (keyCount rest k) with h1 | h1
      · rw [h1]
        simp [addCnt]
      · have h2 : keyCount rest k ≠ 0 := by omega
        have h3 : keyCount rest k + 1 ≠ 0 := by omega
        simp only [addCnt, if_neg h2, if_neg h3, Option.getD_some, Option.some.injEq]
        omega
    · have hkc : keyCount (tok :: rest) k = keyCount rest k := by
        simp [keyCount, List.countP_cons, hcw]
      rw [word_freq_foldl_qual hqual rest (freqStep m tok), hkc]
      have hlk : alookup k (freqStep m tok) = alookup k m := by
        simp only [freqStep]
        split_ifs with hq
        · exact alookup_bump_ne _ _ _ (fun heq => hcw heq.symm)
        · rfl
      rw [hlk]

theorem word_freq_foldl_nonqual {k : PyStr} (hq : freqQual k = false) :
    ∀ (ws : List PyStr) (m : List (PyStr × Nat)),
    alookup k (ws.foldl freqStep m) = alookup k m
  | [], m => rfl
  | tok :: rest, m => by
    rw [List.foldl_cons, word_freq_foldl_nonqual hq rest (freqStep m tok)]
    simp only [freqStep]
    split_ifs with hq2
    · refine alookup_bump_ne _ _ _ ?_
      intro heq
      rw [← heq, hq] at hq2
      cases hq2
    · rfl

theorem keysND_foldl : ∀ (ws : List PyStr) (m : List (PyStr × Nat)),
    (m.map Prod.fst).Nodup → ((ws.foldl freqStep m).map Prod.fst).Nodup
  | [], m, h => h
  | tok :: rest, m, h => by
    rw [List.foldl_cons]
    refine keysND_foldl rest _ ?_
    simp only [freqStep]
    split_ifs with hq
    · exact keysND_bump _ _ h
    · exact h

theorem word_freq_mem {ws : List PyStr} {k : PyStr} {n : Nat}
    (h : (k, n) ∈ word_freq ws) :
    freqQual k = true ∧ n = keyCount ws k ∧ 0 < n := by
  have hnd : ((word_freq ws).map Prod.fst).Nodup := keysND_foldl ws [] (by simp)
  have hlk : alookup k (word_freq ws) = some n := alookup_of_mem hnd h
  by_cases hq : freqQual k = true
  · rw [show word_freq ws = ws.foldl freqStep [] from rfl,
      word_freq_foldl_qual hq ws []] at hlk
    by_cases h0 : keyCount ws k = 0
    · rw [show addCnt (alookup k []) (keyCount ws k) = none from by
        simp [alookup, addCnt, h0]] at hlk
      cases hlk
    · rw [show addCnt (alookup k []) (keyCount ws k) = some (keyCount ws k) from by
        simp [alookup, addCnt, h0]] at hlk
      injection hlk with hn
      exact ⟨hq, hn.symm, by omega⟩
  · have hq2 : freqQual k = false := by simpa using hq
    rw [show word_freq ws = ws.foldl freqStep [] from rfl,
      word_freq_foldl_nonqual hq2 ws []] at hlk
    cases hlk

/-- Counterexample for C3: the extractor accepts the token Ab1c through the
capitalize check of the source, yet the title-cased form of that token is
Ab1C, not itself, and the frequency pass contributes nothing, so the
characterisation of the claim (title-cased form equals itself) does not cover
the returned entry ab1c. -/
theorem c3_title_cex :
    extract_key_concepts (pyS "Ab1c") = [pyS "ab1c"] ∧
    wordsOf (pyS "Ab1c") = [pyS "Ab1c"] ∧
    titleS (pyS "Ab1c") ≠ pyS "Ab1c" ∧
    capitalizeS (pyS "Ab1c") = pyS "Ab1c" ∧
    topTenNames (wordsOf (pyS "Ab1c")) = [] := by decide

/-- C3 (amended: the capitalized-token test is Python capitalize, first
character upper-cased and the rest lower-cased equals the token, rather than
the title-cased form): extract returns at most 8 entries; whitespace-only or
empty text gives the empty list; and every entry is the lower-cased form of a
token that either passes the capitalize test with length above 3, or is
alphabetic of length above 4, occurs more than once, and survives in the
count-above-one part of the frequency top ten. -/
theorem c3_extract_entries :
    ∀ text : PyStr,
    (extract_key_concepts text).length ≤ 8 ∧
    ((∀ c ∈ text, isSpaceN c = true) → extract_key_concepts text = []) ∧
    ∀ w ∈ extract_key_concepts text,
      w ≠ [] ∧ (∀ c ∈ w, isSpaceN c = false) ∧
      ((∃ tok ∈ wordsOf text, w = lowerS tok ∧ capitalizeS tok = tok ∧ 3 < tok.length) ∨
       ((∃ tok ∈ wordsOf text, w = lowerS tok) ∧ 4 < w.length ∧ isalphaS w = true ∧
        1 < keyCount (wordsOf text) w ∧ w ∈ topTenNames (wordsOf text))) := by
  intro text
  refine ⟨?_, ?_, ?_⟩
  · simp only [extract_key_concepts]
    rw [List.length_take]
    exact min_le_left _ _
  · intro hsp
    have hnorm : normText text = text := by
      unfold normText
      have hcong : ∀ c ∈ text, (if isWordCharN c || isSpaceN c then c else 32) = id c := by
        intro c hc
        simp [hsp c hc]
      rw [List.map_congr_left hcong, List.map_id]
    have hws : splitWS (normText text) = [] := by
      rw [hnorm]
      exact splitWS_all_space text hsp
    simp only [extract_key_concepts]
    rw [hws]
    rfl
  · intro w hw
    simp only [wordsOf]
    simp only [extract_key_concepts] at hw
    have hw2 := List.take_subset 8 _ hw
    have hw3 := dedupAux_subset _ [] w hw2
    rcases List.mem_append.mp hw3 with hcap | hfreq
    · obtain ⟨tok, htokmem, rfl⟩ := List.mem_map.mp hcap
      rw [List.mem_filter] at htokmem
      obtain ⟨htokws, hcond⟩ := htokmem
      rw [Bool.and_eq_true] at hcond
      have hcap2 : capitalizeS tok = tok := eq_of_beq hcond.1
      have hlen : 3 < tok.length := of_decide_eq_true hcond.2
      have htok := splitWS_tokens _ tok htokws
      refine ⟨?_, lowerS_no_space htok.2, Or.inl ⟨tok, htokws, rfl, hcap2, hlen⟩⟩
      intro hnil
      apply htok.1
      have hlen0 := congrArg List.length hnil
      rw [lowerS, List.length_map] at hlen0
      exact List.length_eq_zero.mp hlen0
    · obtain ⟨p, hpmem, rfl⟩ := List.mem_map.mp hfreq
      rw [List.mem_filter] at hpmem
      obtain ⟨hp10, hpgt⟩ := hpmem
      have hpwf : p ∈ word_freq (splitWS (normText text)) :=
        (sortDesc_perm _).mem_iff.mp (List.take_subset 10 _ hp10)
      obtain ⟨hqual, hcnt, hpos⟩ := word_freq_mem (show (p.1, p.2) ∈ _ from hpwf)
      rw [freqQual, Bool.and_eq_true, decide_eq_true_eq] at hqual
      have h2 : 1 < p.2 := of_decide_eq_true hpgt
      have hkc : 1 < keyCount (splitWS (normText text)) p.1 := hcnt ▸ h2
      have hex : ∃ tok ∈ splitWS (normText text), stripS (lowerS tok) = p.1 := by
        have hpos2 : 0 < keyCount (splitWS (normText text)) p.1 := by omega
        rw [keyCount] at hpos2
        obtain ⟨tok, htokm, hdec⟩ := List.countP_pos_iff.mp hpos2
        exact ⟨tok, htokm, of_decide_eq_true hdec⟩
      obtain ⟨tok, htokm, hclean⟩ := hex
      have htokp := splitWS_tokens _ tok htokm
      have hstrip : stripS (lowerS tok) = lowerS tok :=
        stripS_of_no_space (lowerS_no_space htokp.2)
      have hwtok : p.1 = lowerS tok := by rw [← hclean, hstrip]
      have halpha : ∀ c ∈ p.1, isAlphaN c = true := by
        have := hqual.2
        rw [isalphaS, Bool.and_eq_true, List.all_eq_true] at this
        exact this.2
      refine ⟨?_, ?_, Or.inr ⟨⟨tok, htokm, hwtok⟩, hqual.1, hqual.2, hkc, hfreq⟩⟩
      · intro hnil
        rw [hnil] at hqual
        simp at hqual
      · intro c hc
        exact isSpaceN_of_alpha (halpha c hc)

/-- Witness for C3 at a concrete text whose single concept comes from both passes. -/
theorem c3_extract_entries_witness :
    (extract_key_concepts (pyS "Photosynthesis photosynthesis photosynthesis")).length ≤ 8 ∧
    (pyS "photosynthesis" ≠ [] ∧
      (∀ c ∈ pyS "photosynthesis", isSpaceN c = false) ∧
      ((∃ tok ∈ wordsOf (pyS "Photosynthesis photosynthesis photosynthesis"),
          pyS "photosynthesis" = lowerS tok ∧ capitalizeS tok = tok ∧ 3 < tok.length) ∨
       ((∃ tok ∈ wordsOf (pyS "Photosynthesis photosynthesis photosynthesis"),
          pyS "photosynthesis" = lowerS tok) ∧ 4 < (pyS "photosynthesis").length ∧
        isalphaS (pyS "photosynthesis") = true ∧
        1 < keyCount (wordsOf (pyS "Photosynthesis photosynthesis photosynthesis"))
          (pyS "photosynthesis") ∧
        pyS "photosynthesis" ∈
          topTenNames (wordsOf (pyS "Photosynthesis photosynthesis photosynthesis"))))) :=
  ⟨(c3_extract_entries (pyS "Photosynthesis photosynthesis photosynthesis")).1,
   (c3_extract_entries (pyS "Photosynthesis photosynthesis photosynthesis")).2.2
     (pyS "photosynthesis") (by decide)⟩

/-- C10: extract_key_concepts invokes no randomness and reads no mutable
state, so its embedding is a pure function of the text; two calls on
identical text have identical concept membership. -/
theorem c10_deterministic :
    ∀ t1 t2 : PyStr, t1 = t2 →
    ∀ w, (w ∈ extract_key_concepts t1 ↔ w ∈ extract_key_concepts t2) := by
  intro t1 t2 h w
  rw [h]

/-- Witness for C10 on a concrete text. -/
theorem c10_deterministic_witness :
    pyS "gravity" ∈ extract_key_concepts (pyS "Gravity gravity") ↔
      pyS "gravity" ∈ extract_key_concepts (pyS "Gravity gravity") :=
  c10_deterministic (pyS "Gravity gravity") (pyS "Gravity gravity") rfl (pyS "gravity")

/-- Counterexample for C9: on the input made of period, space, period the code
reports zero sentences, because the middle fragment is whitespace-only and the
strip check drops it, while the nonempty-fragment count of the claim is one. -/
theorem c9_sentence_cex :
    sentence_count (pyS ". .") = 0 ∧ specSentenceCountNonEmpty (pyS ". .") = 1 ∧
    sentence_count (pyS ". .") ≠ specSentenceCountNonEmpty (pyS ". .") := by decide

/-- C9 (amended: a fragment is counted when it contains a non-whitespace
character, not merely when it is nonempty): wordCount is the number of
whitespace-delimited tokens, every token being nonempty and whitespace-free,
and sentenceCount counts the fragments of the period split that contain a
non-whitespace character. -/
theorem c9_statistics :
    ∀ t : PyStr,
    word_count t = (splitWS t).length ∧
    (∀ tok ∈ splitWS t, tok ≠ [] ∧ ∀ c ∈ tok, isSpaceN c = false) ∧
    sentence_count t =
      ((splitSep 46 t).filter (fun s => s.any (fun c => !isSpaceN c))).length := by
  intro t
  refine ⟨rfl, splitWS_tokens t, ?_⟩
  unfold sentence_count
  congr 1
  apply List.filter_congr
  intro s _
  by_cases h : stripS s = []
  · rw [h]
    have hall := (stripS_eq_nil_iff s).mp h
    simp only [List.isEmpty_nil, Bool.not_true]
    symm
    rw [List.any_eq_false]
    intro c hc
    rw [hall c hc]
    simp
  · have hne : (stripS s).isEmpty = false := by
      rw [List.isEmpty_eq_false]
      exact h
    rw [hne]
    have hex : ¬ ∀ c ∈ s, isSpaceN c = true := fun hall => h ((stripS_eq_nil_iff s).mpr hall)
    push_neg at hex
    obtain ⟨c, hc, hcs⟩ := hex
    have hcf : isSpaceN c = false := by simpa using hcs
    simp only [Bool.not_false]
    symm
    rw [List.any_eq_true]
    exact ⟨c, hc, by simp [hcf]⟩

/-- Witness for C9 at a concrete input with a blank fragment. -/
theorem c9_statistics_witness :
    word_count (pyS "a. .b") = (splitWS (pyS "a. .b")).length ∧
    (∀ tok ∈ splitWS (pyS "a. .b"), tok ≠ [] ∧ ∀ c ∈ tok, isSpaceN c = false) ∧
    sentence_count (pyS "a. .b") =
      ((splitSep 46 (pyS "a. .b")).filter
        (fun s => s.any (fun c => !isSpaceN c))).length :=
  c9_statistics (pyS "a. .b")

theorem countOcc_gravity : countOcc (pyS "Gravity") (boilerplate (pyS "Gravity")) = 5 := by
  decide

/-- Counterexample for C8: the synthesized boilerplate embeds the topic into
five sentences, not six; with topic Gravity the string Gravity occurs at five
positions of the text, not six. -/
theorem c8_six_cex : countOcc (pyS "Gravity") (boilerplate (pyS "Gravity")) ≠ 6 := by
  rw [countOcc_gravity]
  decide

/-- C8 (amended: the boilerplate has five sentences and five occurrences of
the topic rather than six): with topic Gravity the synthesized text contains
Gravity exactly five times and five sentences, and extraction yields gravity
through the frequency pass, whose recorded occurrence count is five, above the
count-one threshold, so gravity survives into the top-ten names and into the
final concept list. -/
theorem c8_gravity_boilerplate :
    countOcc (pyS "Gravity") (boilerplate (pyS "Gravity")) = 5 ∧
    sentence_count (boilerplate (pyS "Gravity")) = 5 ∧
    alookup (pyS "gravity") (word_freq (wordsOf (boilerplate (pyS "Gravity")))) = some 5 ∧
    (1 : Nat) < 5 ∧
    pyS "gravity" ∈ topTenNames (wordsOf (boilerplate (pyS "Gravity"))) ∧
    pyS "gravity" ∈ extract_key_concepts (boilerplate (pyS "Gravity")) :=
  ⟨countOcc_gravity, by decide, by decide, by decide, by decide, by decide⟩
